import Mathlib

/-!
Verification development for the rube-iks-cube repository's MCP-client core.

Shallow embedding of:
* `mcp_client.py` — `MCPClient` (constructor, `set_bearer_token`,
  `set_api_key`, `_get_next_id`, `_initialize_connection`,
  `introspect_tools`, `call_tool`);
* `oauth_client.py` — `OAuth2Client` (`generate_authorization_url`,
  the token-handling tail of `interactive_auth_flow`, and the stdlib
  `secrets.token_urlsafe` it calls, modelled as base64url over explicit
  entropy bytes);
* `main.py` — `authenticate_with_oauth` and `query_mcp_server`
  (first attempt, string-based 401 classification, single OAuth cycle,
  single retry).

Python strings are modelled as `String` or `List Char`, dicts as
association lists, JSON values as `JValue`, everything read from the
network or the interactive user as explicit environment records, and
raised exceptions as `Except` / `Option` results.
-/

namespace RubeIksCube

/-- Prefix test on character lists (Python `str.startswith` semantics). -/
def isPrefixCh : List Char → List Char → Bool
  | [], _ => true
  | _ :: _, [] => false
  | a :: as, b :: bs => a == b && isPrefixCh as bs

/-- Substring test on character lists (Python `needle in hay` semantics). -/
def hasSub (needle : List Char) : List Char → Bool
  | [] => needle.isEmpty
  | c :: rest => isPrefixCh needle (c :: rest) || hasSub needle rest

/-- Python `sub in hay` on `String`s. -/
def strHas (hay sub : String) : Bool := hasSub sub.toList hay.toList

/-- Python `str.strip()`: drop whitespace from both ends. -/
def pyStrip (s : List Char) : List Char :=
  ((s.dropWhile Char.isWhitespace).reverse.dropWhile Char.isWhitespace).reverse

/-- Python `str.lower()` (ASCII fragment, as used for the `"bearer "` test). -/
def pyLower (s : List Char) : List Char := s.map Char.toLower

/-- JSON values (payloads carried in JSON-RPC envelopes). -/
inductive JValue where
  | null
  | bool (b : Bool)
  | num (n : Int)
  | str (s : String)
  | arr (xs : List JValue)
  | obj (fields : List (String × JValue))

/-- Python truthiness of a JSON value (`if result and ...`). -/
def jTruthy : JValue → Bool
  | .null => false
  | .bool b => b
  | .num n => n != 0
  | .str s => !(s == "")
  | .arr xs => !xs.isEmpty
  | .obj fs => !fs.isEmpty

/-- Python `isinstance(v, dict)`. -/
def isObjB : JValue → Bool
  | .obj _ => true
  | _ => false

/-- Python `'k' in v` for a dict value (`False` on non-dicts). -/
def hasKeyB : JValue → String → Bool
  | .obj fs, k => fs.any (fun p => p.1 == k)
  | _, _ => false

/-- Python `v['k']` dict lookup (defaulting to `null`; used only under a
`hasKeyB` guard, mirroring the guarded subscript in the source). -/
def jGetD : JValue → String → JValue
  | .obj fs, k => ((fs.find? (fun p => p.1 == k)).map (fun p => p.2)).getD .null
  | _, _ => .null

/-- A JSON-RPC 2.0 envelope as classified by `mcp.types.JSONRPCMessage`.
`result` is a `JValue` so that null/empty results are representable. -/
inductive RpcMsg where
  | request (id : Nat) (method : String) (params : JValue)
  | notification (method : String) (params : JValue)
  | response (id : Nat) (result : JValue)
  | errorResponse (id : Nat) (code : Int) (message : String)

/-- Is the envelope a `JSONRPCResponse`? (`isinstance(root, JSONRPCResponse)`). -/
def isResponseB : RpcMsg → Bool
  | .response _ _ => true
  | _ => false

/-- A raised/received exception, as introspected by the source: the
`str(e)` text, the `traceback.format_exc()` text, and the underlying HTTP
status attribute when one exists.  The source's 401 classifier reads only
the two strings; `status` records the transport-level fact the spec talks
about. -/
structure ErrInfo where
  msg : String
  tb : String
  status : Option Nat
deriving Repr, DecidableEq

/-- What `read_stream.receive()` yields: either an `Exception` object or a
`SessionMessage` (its JSON-RPC root). -/
inductive Recv where
  | exn (e : ErrInfo)
  | msg (m : RpcMsg)

/-- Wire events observable on one transport connection, in order: request
envelopes sent, notification envelopes sent, messages received. -/
inductive WireEv where
  | sendReq (id : Nat) (method : String) (params : JValue)
  | sendNote (method : String) (params : JValue)
  | recvEv (r : Recv)

/-- The environment of one `streamablehttp_client` connection: what the
server answers to `initialize`, the session id the transport reports, and
what it answers to the single tool request. -/
structure ConnEnv where
  initResponse : Recv
  serverSessionId : Option String
  toolsResponse : Recv

/-- `MCPClient` state (`__init__`: `self.url`, `self.auth`, `self.headers`,
`self._session_id`, `self._next_request_id`).  Headers are an association
list standing for the Python dict. -/
structure MCPClient where
  url : String
  auth : Option String
  headers : List (String × String)
  sessionId : Option String
  nextRequestId : Nat
deriving Repr, DecidableEq

/-- `MCPClient.__init__(url, auth=None, headers=None)`:
`self.headers = headers or {}`, `self._session_id = None`,
`self._next_request_id = 1`. -/
def MCPClient.init (url : String) (auth : Option String)
    (headers : Option (List (String × String))) : MCPClient :=
  { url := url, auth := auth, headers := headers.getD [],
    sessionId := none, nextRequestId := 1 }

/-- Python dict key assignment `d[k] = v` on the association-list model:
replace the binding if the key is present, append otherwise. -/
def dictSet (hs : List (String × String)) (k v : String) :
    List (String × String) :=
  if hs.any (fun p => p.1 == k) then
    hs.map (fun p => if p.1 == k then (k, v) else p)
  else hs ++ [(k, v)]

/-- `MCPClient.set_bearer_token`: `self.headers['Authorization'] =
f'Bearer {token}'` on the same client object. -/
def set_bearer_token (c : MCPClient) (token : String) : MCPClient :=
  { c with headers := dictSet c.headers "Authorization" ("Bearer " ++ token) }

/-- `MCPClient.set_api_key`: `self.headers[header_name] = api_key`. -/
def set_api_key (c : MCPClient) (apiKey headerName : String) : MCPClient :=
  { c with headers := dictSet c.headers headerName apiKey }

/-- `MCPClient._get_next_id`: return the counter, post-increment it. -/
def get_next_id (c : MCPClient) : Nat × MCPClient :=
  (c.nextRequestId, { c with nextRequestId := c.nextRequestId + 1 })

/-- The `InitializeRequestParams` payload built in
`_initialize_connection`. -/
def initParams : JValue :=
  .obj [("protocolVersion", .str "2024-11-05"),
        ("capabilities", .obj [("roots", .obj [("listChanged", .bool true)])]),
        ("clientInfo", .obj [("name", .str "rube-iks-cube"),
                             ("version", .str "0.1.0")])]

/-- `MCPClient._initialize_connection`: send the `initialize` request
(taking the next id), await the response; a received exception is
re-raised; otherwise record the transport's session id and send the
`notifications/initialized` notification.  Returns the wire trace, the
updated client state, and the raised exception if any. -/
def initialize_connection (env : ConnEnv) (c : MCPClient) :
    List WireEv × MCPClient × Option ErrInfo :=
  let idc := get_next_id c
  match env.initResponse with
  | .exn e =>
      ([.sendReq idc.1 "initialize" initParams, .recvEv (.exn e)],
       idc.2, some e)
  | .msg m =>
      ([.sendReq idc.1 "initialize" initParams, .recvEv (.msg m),
        .sendNote "notifications/initialized" (.obj [])],
       { idc.2 with sessionId := env.serverSessionId }, none)

/-- The tools-parsing tail of `MCPClient.introspect_tools`: `tools = []`;
if the root is a `JSONRPCResponse` whose `result` is truthy, a dict, and
has key `'tools'`, then `tools = result['tools']`. -/
def parseToolsResult (m : RpcMsg) : JValue :=
  match m with
  | .response _ res =>
      if jTruthy res && isObjB res && hasKeyB res "tools" then jGetD res "tools"
      else .arr []
  | _ => .arr []

/-- `MCPClient.introspect_tools`: open a connection, run
`_initialize_connection`, send one `tools/list` request, await the
response (re-raising a received exception), and parse the tools out of it.
Returns the wire trace, the updated client, and the result or raised
exception. -/
def introspect_tools (env : ConnEnv) (c : MCPClient) :
    List WireEv × MCPClient × Except ErrInfo JValue :=
  match initialize_connection env c with
  | (tr, c1, some e) => (tr, c1, .error e)
  | (tr, c1, none) =>
      let idc := get_next_id c1
      let tr2 := tr ++ [.sendReq idc.1 "tools/list" (.obj [])]
      match env.toolsResponse with
      | .exn e => (tr2 ++ [.recvEv (.exn e)], idc.2, .error e)
      | .msg m => (tr2 ++ [.recvEv (.msg m)], idc.2, .ok (parseToolsResult m))

/-- The `Exception("Unexpected response format from tool call")` raised by
`call_tool` on a non-`JSONRPCResponse` root. -/
def unexpectedFormatErr : ErrInfo :=
  { msg := "Unexpected response format from tool call", tb := "", status := none }

/-- The result-parsing tail of `MCPClient.call_tool`: on a
`JSONRPCResponse` root return `root.result or {}`; otherwise raise. -/
def parseCallResult (m : RpcMsg) : Except ErrInfo JValue :=
  match m with
  | .response _ res => .ok (if jTruthy res then res else .obj [])
  | _ => .error unexpectedFormatErr

/-- `MCPClient.call_tool(tool_name, arguments=None)`: default the
arguments to `{}`, open a connection, run `_initialize_connection`, send
one `tools/call` request, await the response (re-raising a received
exception), and parse the result. -/
def call_tool (env : ConnEnv) (toolName : String) (arguments : Option JValue)
    (c : MCPClient) : List WireEv × MCPClient × Except ErrInfo JValue :=
  let args := arguments.getD (.obj [])
  match initialize_connection env c with
  | (tr, c1, some e) => (tr, c1, .error e)
  | (tr, c1, none) =>
      let idc := get_next_id c1
      let tr2 := tr ++ [.sendReq idc.1 "tools/call"
        (.obj [("name", .str toolName), ("arguments", args)])]
      match env.toolsResponse with
      | .exn e => (tr2 ++ [.recvEv (.exn e)], idc.2, .error e)
      | .msg m => (tr2 ++ [.recvEv (.msg m)], idc.2, parseCallResult m)

/-- The `w` low bits of `n`, most significant first. -/
def natBits : Nat → Nat → List Bool
  | 0, _ => []
  | w + 1, n => decide (n / 2 ^ w % 2 = 1) :: natBits w n

/-- Value of a bit list, most significant first. -/
def bitsToNat : List Bool → Nat
  | [] => 0
  | b :: bs => (if b then 1 else 0) * 2 ^ bs.length + bitsToNat bs

/-- Bytes to bit stream (8 bits per byte, MSB first). -/
def bytesToBits (r : List Nat) : List Bool := r.flatMap (natBits 8)

/-- Pad a final partial group with zero bits up to 6 bits. -/
def pad6 (bs : List Bool) : List Bool :=
  bs.take 6 ++ List.replicate (6 - bs.length) false

/-- Split a bit stream into 6-bit groups (zero-padding the last group):
the sextet stream of base64 encoding. -/
def chunk6 : List Bool → List Nat
  | [] => []
  | b1 :: b2 :: b3 :: b4 :: b5 :: b6 :: rest =>
      bitsToNat [b1, b2, b3, b4, b5, b6] :: chunk6 rest
  | bs => [bitsToNat (pad6 bs)]

/-- Reassemble the bit stream of a sextet list. -/
def sextetsToBits (vs : List Nat) : List Bool := vs.flatMap (natBits 6)

/-- Split a bit stream into 8-bit groups, dropping a ragged tail. -/
def chunk8 : List Bool → List Nat
  | b1 :: b2 :: b3 :: b4 :: b5 :: b6 :: b7 :: b8 :: rest =>
      bitsToNat [b1, b2, b3, b4, b5, b6, b7, b8] :: chunk8 rest
  | _ => []

/-- The URL-safe base64 alphabet used by `base64.urlsafe_b64encode`. -/
def b64urlAlphabet : List Char :=
  "ABCDEFGHIJKLMNOPQRSTUVWXYZabcdefghijklmnopqrstuvwxyz0123456789-_".toList

/-- Character for a sextet value. -/
def charOfSextet (v : Nat) : Char := b64urlAlphabet.getD v 'A'

/-- Index of a character in the base64url alphabet (decoding helper). -/
def sextetOfChar (c : Char) : Nat := b64urlAlphabet.indexOf c

/-- `secrets.token_urlsafe` applied to explicit entropy bytes: URL-safe
base64 of the bytes with the `=` padding stripped (for 32 bytes: 43
characters).  The randomness of `os.urandom` is modelled by passing the
fresh bytes in as an argument. -/
def token_urlsafe (entropy : List Nat) : String :=
  ⟨(chunk6 (bytesToBits entropy)).map charOfSextet⟩

/-- Decoder used to prove the encoding injective: recover the bytes from
the character list of a padding-stripped base64url string. -/
def b64uDecode (s : String) : List Nat :=
  chunk8 ((sextetsToBits (s.toList.map sextetOfChar)).take
    (8 * (6 * s.toList.length / 8)))

/-- Python truthiness of an optional string (`if self.client_id:`). -/
def truthyStrOpt : Option String → Bool
  | none => false
  | some s => !(s == "")

/-- `OAuth2Client.__init__` state. -/
structure OAuth2Client where
  authorization_endpoint : String
  token_endpoint : String
  client_id : Option String
  client_secret : Option String
deriving Repr, DecidableEq

/-- `OAuth2Client.generate_authorization_url`: build the query parameters
in source order, appending `client_id` only when it is truthy, and pair
the resulting parameter list (rendered into the URL by
`urllib.parse.urlencode`, an external stdlib boundary) with the fresh
`state` produced by `secrets.token_urlsafe(32)` on the given entropy. -/
def generate_authorization_url (oc : OAuth2Client) (redirectUri email : String)
    (entropy : List Nat) : List (String × String) × String :=
  let state := token_urlsafe entropy
  let params := [("response_type", "code"),
                 ("redirect_uri", redirectUri),
                 ("scope", "openid profile email"),
                 ("state", state),
                 ("login_hint", email),
                 ("email", email)]
  let params := if truthyStrOpt oc.client_id then
      params ++ [("client_id", oc.client_id.getD "")]
    else params
  (params, state)

/-- The token-handling tail of `OAuth2Client.interactive_auth_flow`
(oauth_client.py lines 122-141): `if token and token.strip():` then
`token = token.strip()`, strip a case-insensitive `"bearer "` prefix via
`token.lower().startswith("bearer ")` and `token[7:]`, and return the
token from either branch of the cosmetic length check; otherwise return
`None`. -/
def process_token (token : List Char) : Option (List Char) :=
  if (pyStrip token).isEmpty then none
  else
    let t := pyStrip token
    let t2 := if isPrefixCh "bearer ".toList (pyLower t) then t.drop 7 else t
    if 10 < t2.length then some t2 else some t2

/-- `OAuth2Client.interactive_auth_flow(email)`: generate the authorization
URL against the fixed rube.app redirect URI (browser opening and console
guidance are I/O), prompt for a pasted token, and run the token-handling
tail.  The pasted token is an environment input. -/
def interactive_auth_flow (oc : OAuth2Client) (entropy : List Nat)
    (email : String) (tokenInput : String) : Option String :=
  let _urlState := generate_authorization_url oc
    "https://rube.app/api/auth/callback" email entropy
  (process_token tokenInput.toList).map (fun l => ⟨l⟩)

/-- The MCP endpoint used by `main.query_mcp_server`. -/
def rubeUrl : String := "https://rube.app/mcp"

/-- The `OAuth2Client` constructed in `main.authenticate_with_oauth`
(Composio endpoints; no client id, no client secret). -/
def composioClient : OAuth2Client :=
  { authorization_endpoint := "https://login.composio.dev/oauth2/authorize",
    token_endpoint := "https://login.composio.dev/oauth2/token",
    client_id := none, client_secret := none }

/-- Environment of one `main.query_mcp_server` run: the first connection's
behaviour, the interactive answers (consent, email, pasted token), the
OAuth entropy, and the second connection's behaviour. -/
structure MainEnv where
  conn1 : ConnEnv
  proceed : Bool
  email : String
  entropy : List Nat
  tokenInput : String
  conn2 : ConnEnv

/-- `main.authenticate_with_oauth`: return `None` when the user declines
or supplies a blank email, otherwise run the interactive OAuth flow
against the Composio endpoints. -/
def authenticate_with_oauth (env : MainEnv) : Option String :=
  if !env.proceed then none
  else if (pyStrip env.email.toList).isEmpty then none
  else interactive_auth_flow composioClient env.entropy env.email env.tokenInput

/-- Final outcome reported by `main.query_mcp_server`'s console panels. -/
inductive FinalOutcome where
  | success (tools : JValue) (attempt : Nat)
  | authFailedRetry (e : ErrInfo)
  | authFailedNoToken
  | mcpError (e : ErrInfo)

/-- Observable summary of one `main.query_mcp_server` run: the header
dict attached to each `introspect_tools` attempt, how many times
`authenticate_with_oauth` ran, and the reported outcome. -/
structure RunSummary where
  attempts : List (List (String × String))
  oauthInvocations : Nat
  final : FinalOutcome

/-- `main.query_mcp_server`'s 401 classification (main.py lines 130-131):
substring tests on `str(e)` and `traceback.format_exc()`. -/
def is_auth_error (e : ErrInfo) : Bool :=
  strHas e.msg "401 Unauthorized" || strHas e.tb "401 Unauthorized" ||
  strHas e.msg "HTTPStatusError" || strHas e.tb "HTTPStatusError"

/-- `main.query_mcp_server`: construct `MCPClient("https://rube.app/mcp")`,
attempt `introspect_tools`; on an error classified by `is_auth_error`, run
`authenticate_with_oauth`; when a token comes back, call
`set_bearer_token` on the same client and retry `introspect_tools` once,
reporting the retry's error if it fails; when no token comes back, or the
error is not classified as authentication, report a failure panel. -/
def query_mcp_server (env : MainEnv) : RunSummary :=
  let c := MCPClient.init rubeUrl none none
  let r1 := introspect_tools env.conn1 c
  match r1.2.2 with
  | .ok tools => ⟨[c.headers], 0, .success tools 1⟩
  | .error e =>
    if is_auth_error e then
      match authenticate_with_oauth env with
      | some tok =>
          let c2 := set_bearer_token r1.2.1 tok
          let r2 := introspect_tools env.conn2 c2
          match r2.2.2 with
          | .ok tools => ⟨[c.headers, c2.headers], 1, .success tools 2⟩
          | .error e2 => ⟨[c.headers, c2.headers], 1, .authFailedRetry e2⟩
      | none => ⟨[c.headers], 1, .authFailedNoToken⟩
    else ⟨[c.headers], 0, .mcpError e⟩

/-- One logical client operation and its connection environment:
`introspect_tools` or `call_tool`. -/
inductive OpSpec where
  | list (env : ConnEnv)
  | call (env : ConnEnv) (name : String) (args : Option JValue)

/-- Run one operation on a client, keeping the wire trace and the updated
client state. -/
def run_op (c : MCPClient) : OpSpec → List WireEv × MCPClient
  | .list env => ((introspect_tools env c).1, (introspect_tools env c).2.1)
  | .call env n a => ((call_tool env n a c).1, (call_tool env n a c).2.1)

/-- Run a sequence of operations on one client instance, each opening its
own connection, concatenating the wire traces. -/
def run_ops (c : MCPClient) : List OpSpec → List WireEv × MCPClient
  | [] => ([], c)
  | op :: rest =>
      let r := run_op c op
      let rr := run_ops r.2 rest
      (r.1 ++ rr.1, rr.2)

/-- The ids of all request envelopes in a wire trace, in send order. -/
def reqIds (tr : List WireEv) : List Nat :=
  tr.filterMap (fun ev => match ev with
    | .sendReq i _ _ => some i
    | _ => none)

/-- How many request envelopes one operation sends: one when `initialize`
dies with an exception, two otherwise. -/
def opCost : OpSpec → Nat
  | .list env => match env.initResponse with | .exn _ => 1 | .msg _ => 2
  | .call env _ _ => match env.initResponse with | .exn _ => 1 | .msg _ => 2

/-- Total request envelopes sent by a sequence of operations. -/
def opsCost (ops : List OpSpec) : Nat := (ops.map opCost).sum

/-- The ids returned by `n` successive `_get_next_id` calls on a client. -/
def ids_from (c : MCPClient) : Nat → List Nat
  | 0 => []
  | n + 1 => (get_next_id c).1 :: ids_from (get_next_id c).2 n

/-- The handshake-ordering property of a wire trace: any `tools/list` or
`tools/call` request is preceded, in order, by a sent `initialize`
request, a received (non-exception) message answering it, and a sent
`notifications/initialized` notification. -/
def handshakeOrdered (tr : List WireEv) : Prop :=
  ∀ i id m p, tr.get? i = some (.sendReq id m p) →
    (m = "tools/list" ∨ m = "tools/call") →
    ∃ j k l, j < k ∧ k < l ∧ l < i ∧
      (∃ id0 p0, tr.get? j = some (.sendReq id0 "initialize" p0)) ∧
      (∃ mres, tr.get? k = some (.recvEv (.msg mres))) ∧
      (∃ pn, tr.get? l = some (.sendNote "notifications/initialized" pn))

/-! Concrete inputs used by witnesses and counterexamples. -/

/-- A realistic httpx 401 exception as it reaches `query_mcp_server`. -/
def e401 : ErrInfo :=
  { msg := "Client error '401 Unauthorized' for url 'https://rube.app/mcp'",
    tb := "", status := some 401 }

/-- A realistic httpx 500 exception: the message names the 500 status and
the traceback names the `HTTPStatusError` exception class. -/
def e500 : ErrInfo :=
  { msg := "Server error '500 Internal Server Error' for url 'https://rube.app/mcp'",
    tb := "Traceback (most recent call last): httpx.HTTPStatusError",
    status := some 500 }

/-- A connection whose `initialize` dies with the given exception. -/
def connExn (e : ErrInfo) : ConnEnv :=
  { initResponse := .exn e, serverSessionId := none, toolsResponse := .exn e }

/-- A benign `initialize` response message. -/
def okInitMsg : RpcMsg := .response 1 (.obj [("capabilities", .obj [])])

/-- A connection that answers `initialize` normally and answers the tool
request with a `JSONRPCResponse` carrying the given `result`. -/
def connResult (res : JValue) : ConnEnv :=
  { initResponse := .msg okInitMsg, serverSessionId := some "sess-1",
    toolsResponse := .msg (.response 2 res) }

/-- `query_mcp_server` environment: 401 on the first attempt, consenting
user pasting a bearer token, 401 again on the retry. -/
def env401 : MainEnv :=
  { conn1 := connExn e401, proceed := true, email := "a@b.com",
    entropy := List.range 32, tokenInput := "Bearer abc123xyz",
    conn2 := connExn e401 }

/-- `query_mcp_server` environment: HTTP 500 surfaced as an
`httpx.HTTPStatusError` on the first attempt. -/
def env500 : MainEnv :=
  { conn1 := connExn e500, proceed := true, email := "a@b.com",
    entropy := List.range 32, tokenInput := "Bearer abc123xyz",
    conn2 := connExn e500 }

/-- A client mid-life: it has already issued ids 1 and 2 and holds a
session id from its last connection. -/
def demoClient : MCPClient :=
  { url := rubeUrl, auth := none, headers := [], sessionId := some "sess-1",
    nextRequestId := 3 }

/-- A `tools/list` result whose `tools` value is not an array. -/
def nonArrayToolsResult : JValue := .obj [("tools", .str "oops")]

/-- Rendering of claim C7 as stated: replacing the credential yields the
same state as CONSTRUCTING A NEW client/session with the new headers —
per `MCPClient.__init__` (spec §3 Session) that state has a fresh id
counter (1) and no session id. -/
def credential_replacement_constructs_fresh : Prop :=
  ∀ (c : MCPClient) (t : String),
    set_bearer_token c t =
      MCPClient.init c.url c.auth
        (some (dictSet c.headers "Authorization" ("Bearer " ++ t)))

/-- Rendering of claim C2's second half as stated: a first-attempt failure
whose underlying HTTP status is neither 401 nor 403 does not trigger the
OAuth flow. -/
def only_auth_statuses_trigger_oauth : Prop :=
  ∀ (env : MainEnv) (e : ErrInfo),
    (introspect_tools env.conn1 (MCPClient.init rubeUrl none none)).2.2 =
      .error e →
    ¬(e.status = some 401 ∨ e.status = some 403) →
    (query_mcp_server env).oauthInvocations = 0

/-! Helper lemmas: bit-level arithmetic behind the base64url encoding. -/

theorem bitsToNat_lt (bs : List Bool) : bitsToNat bs < 2 ^ bs.length := by
  induction bs with
  | nil => simp [bitsToNat]
  | cons b rest ih =>
      simp only [bitsToNat, List.length_cons, pow_succ]
      rcases b <;> (simp; omega)

theorem natBits_length (w n : Nat) : (natBits w n).length = w := by
  induction w generalizing n with
  | zero => rfl
  | succ w ih => simp [natBits, ih]

theorem bitsToNat_natBits (w n : Nat) : bitsToNat (natBits w n) = n % 2 ^ w := by
  induction w generalizing n with
  | zero => simp [natBits, bitsToNat, Nat.mod_one]
  | succ w ih =>
      simp only [natBits, bitsToNat, natBits_length, ih]
      have h2 : (2 : Nat) ^ (w + 1) = 2 ^ w * 2 := by ring
      rw [h2, Nat.mod_mul]
      have := Nat.mod_two_eq_zero_or_one (n / 2 ^ w)
      rcases this with h | h
      · simp [h]
      · simp [h]
        omega

theorem natBits_mul_add (w c n : Nat) :
    natBits w (c * 2 ^ w + n) = natBits w n := by
  induction w generalizing c with
  | zero => rfl
  | succ w ih =>
      simp only [natBits, List.cons.injEq]
      refine ⟨?_, ?_⟩
      · have h2 : c * 2 ^ (w + 1) + n = (c * 2) * 2 ^ w + n := by ring
        simp only [h2]
        have h3 : ((c * 2) * 2 ^ w + n) / 2 ^ w = c * 2 + n / 2 ^ w := by
          rw [Nat.add_comm,
            Nat.add_mul_div_right _ _ (Nat.pos_pow_of_pos w (by norm_num))]
          omega
        simp only [h3]
        have h4 : (c * 2 + n / 2 ^ w) % 2 = (n / 2 ^ w) % 2 := by omega
        simp only [h4]
      · have h2 : c * 2 ^ (w + 1) + n = (c * 2) * 2 ^ w + n := by ring
        rw [h2, ih]

theorem natBits_bitsToNat (bs : List Bool) :
    natBits bs.length (bitsToNat bs) = bs := by
  induction bs with
  | nil => rfl
  | cons b rest ih =>
      simp only [List.length_cons, natBits, bitsToNat, List.cons.injEq]
      refine ⟨?_, ?_⟩
      · have hlt := bitsToNat_lt rest
        have hdiv : ((if b then 1 else 0) * 2 ^ rest.length + bitsToNat rest) /
            2 ^ rest.length = (if b then 1 else 0) := by
          rw [Nat.add_comm,
            Nat.add_mul_div_right _ _ (Nat.pos_pow_of_pos _ (by norm_num))]
          rw [Nat.div_eq_of_lt hlt]
          omega
        simp only [hdiv]
        rcases b <;> simp
      · rw [natBits_mul_add]
        exact ih

theorem chunk6_lt (bs : List Bool) : ∀ v ∈ chunk6 bs, v < 64 := by
  induction bs using chunk6.induct with
  | case1 => simp [chunk6]
  | case2 b1 b2 b3 b4 b5 b6 rest ih =>
      intro v hv
      simp only [chunk6, List.mem_cons] at hv
      rcases hv with h | h
      · subst h
        have := bitsToNat_lt [b1, b2, b3, b4, b5, b6]
        simpa using this
      · exact ih v h
  | case3 bs h1 h2 =>
      intro v hv
      have hbs : chunk6 bs = [bitsToNat (pad6 bs)] := by
        match bs, h1, h2 with
        | [a], _, _ => rfl
        | [a, b], _, _ => rfl
        | [a, b, c], _, _ => rfl
        | [a, b, c, d], _, _ => rfl
        | [a, b, c, d, e], _, _ => rfl
        | [], h1, _ => exact absurd rfl h1
        | a :: b :: c :: d :: e :: f :: rest, _, h2 =>
            exact absurd rfl (h2 a b c d e f rest)
      rw [hbs] at hv
      simp only [List.mem_singleton] at hv
      subst hv
      have hlen : (pad6 bs).length = 6 := by
        simp only [pad6, List.length_append, List.length_take,
          List.length_replicate]
        omega
      have := bitsToNat_lt (pad6 bs)
      rw [hlen] at this
      simpa using this

theorem chunk6_length (bs : List Bool) :
    (chunk6 bs).length = (bs.length + 5) / 6 := by
  induction bs using chunk6.induct with
  | case1 => simp [chunk6]
  | case2 b1 b2 b3 b4 b5 b6 rest ih =>
      simp only [chunk6, List.length_cons, ih]
      omega
  | case3 bs h1 h2 =>
      match bs, h1, h2 with
      | [a], _, _ => simp [chunk6]
      | [a, b], _, _ => simp [chunk6]
      | [a, b, c], _, _ => simp [chunk6]
      | [a, b, c, d], _, _ => simp [chunk6]
      | [a, b, c, d, e], _, _ => simp [chunk6]
      | [], h1, _ => exact absurd rfl h1
      | a :: b :: c :: d :: e :: f :: rest, _, h2 =>
          exact absurd rfl (h2 a b c d e f rest)

theorem chunk6_roundtrip (bs : List Bool) :
    (sextetsToBits (chunk6 bs)).take bs.length = bs := by
  induction bs using chunk6.induct with
  | case1 => rfl
  | case2 b1 b2 b3 b4 b5 b6 rest ih =>
      have h6 : natBits 6 (bitsToNat [b1, b2, b3, b4, b5, b6])
          = [b1, b2, b3, b4, b5, b6] := natBits_bitsToNat [b1, b2, b3, b4, b5, b6]
      simp only [chunk6, sextetsToBits, List.flatMap_cons, h6, List.length_cons,
        List.cons_append, List.nil_append, List.take_succ_cons]
      simp only [List.cons.injEq, true_and]
      exact ih
  | case3 bs h1 h2 =>
      have hbs : chunk6 bs = [bitsToNat (pad6 bs)] := by
        match bs, h1, h2 with
        | [a], _, _ => rfl
        | [a, b], _, _ => rfl
        | [a, b, c], _, _ => rfl
        | [a, b, c, d], _, _ => rfl
        | [a, b, c, d, e], _, _ => rfl
        | [], h1, _ => exact absurd rfl h1
        | a :: b :: c :: d :: e :: f :: rest, _, h2 =>
            exact absurd rfl (h2 a b c d e f rest)
      have hlen5 : bs.length < 6 := by
        match bs, h1, h2 with
        | [a], _, _ => simp
        | [a, b], _, _ => simp
        | [a, b, c], _, _ => simp
        | [a, b, c, d], _, _ => simp
        | [a, b, c, d, e], _, _ => simp
        | [], h1, _ => exact absurd rfl h1
        | a :: b :: c :: d :: e :: f :: rest, _, h2 =>
            exact absurd rfl (h2 a b c d e f rest)
      have hlen : (pad6 bs).length = 6 := by
        simp only [pad6, List.length_append, List.length_take,
          List.length_replicate]
        omega
      have h6 : natBits 6 (bitsToNat (pad6 bs)) = pad6 bs := by
        have := natBits_bitsToNat (pad6 bs)
        rwa [hlen] at this
      rw [hbs]
      simp only [sextetsToBits, List.flatMap_cons, List.flatMap_nil,
        List.append_nil, h6]
      have htake : bs.take 6 = bs := List.take_of_length_le (by omega)
      simp only [pad6, htake]
      rw [List.take_append_of_le_length (le_refl bs.length)]
      exact List.take_length bs

theorem length_bytesToBits (r : List Nat) :
    (bytesToBits r).length = 8 * r.length := by
  induction r with
  | nil => rfl
  | cons b rest ih =>
      simp only [bytesToBits, List.flatMap_cons, List.length_append,
        natBits_length, List.length_cons]
      simp only [bytesToBits] at ih
      omega

theorem chunk8_bytes (r : List Nat) (h : ∀ b ∈ r, b < 256) :
    chunk8 (bytesToBits r) = r := by
  induction r with
  | nil => rfl
  | cons b rest ih =>
      have hb : b < 256 := h b (by simp)
      have hrest : ∀ x ∈ rest, x < 256 := fun x hx => h x (List.mem_cons_of_mem b hx)
      have hbit : bitsToNat (natBits 8 b) = b := by
        rw [bitsToNat_natBits]; exact Nat.mod_eq_of_lt hb
      calc chunk8 (bytesToBits (b :: rest))
          = chunk8 (natBits 8 b ++ bytesToBits rest) := by simp [bytesToBits]
        _ = bitsToNat (natBits 8 b) :: chunk8 (bytesToBits rest) := by
              simp only [natBits, List.cons_append, List.nil_append, chunk8,
                List.append_eq]
        _ = b :: rest := by rw [hbit, ih hrest]

theorem sextet_char_roundtrip : ∀ v, v < 64 → sextetOfChar (charOfSextet v) = v := by
  decide

theorem charOfSextet_mem_of_lt : ∀ v, v < 64 → charOfSextet v ∈ b64urlAlphabet := by
  decide

theorem b64uDecode_token_urlsafe (r : List Nat) (hlen : r.length = 32)
    (hby : ∀ b ∈ r, b < 256) : b64uDecode (token_urlsafe r) = r := by
  have hbits : (bytesToBits r).length = 256 := by rw [length_bytesToBits, hlen]
  have hlt := chunk6_lt (bytesToBits r)
  have hmap : (token_urlsafe r).toList.map sextetOfChar = chunk6 (bytesToBits r) := by
    show ((chunk6 (bytesToBits r)).map charOfSextet).map sextetOfChar = _
    rw [List.map_map]
    have hcong : ∀ v ∈ chunk6 (bytesToBits r),
        (sextetOfChar ∘ charOfSextet) v = id v := by
      intro v hv
      simp only [Function.comp_apply, id_eq]
      exact sextet_char_roundtrip v (hlt v hv)
    rw [List.map_congr_left hcong, List.map_id]
  have hclen : (token_urlsafe r).toList.length = 43 := by
    show ((chunk6 (bytesToBits r)).map charOfSextet).length = 43
    rw [List.length_map, chunk6_length, hbits]
  unfold b64uDecode
  rw [hmap, hclen]
  have hamt : 8 * (6 * 43 / 8) = (bytesToBits r).length := by rw [hbits]
  rw [hamt, chunk6_roundtrip, chunk8_bytes r hby]

theorem token_urlsafe_inj (r1 r2 : List Nat)
    (h1 : r1.length = 32) (hb1 : ∀ b ∈ r1, b < 256)
    (h2 : r2.length = 32) (hb2 : ∀ b ∈ r2, b < 256)
    (hne : r1 ≠ r2) : token_urlsafe r1 ≠ token_urlsafe r2 := by
  intro heq
  apply hne
  have := congrArg b64uDecode heq
  rwa [b64uDecode_token_urlsafe r1 h1 hb1, b64uDecode_token_urlsafe r2 h2 hb2]
    at this

theorem token_urlsafe_chars (r : List Nat) :
    ∀ ch ∈ (token_urlsafe r).toList, ch ∈ b64urlAlphabet := by
  intro ch hch
  have hm : ch ∈ (chunk6 (bytesToBits r)).map charOfSextet := hch
  rcases List.mem_map.mp hm with ⟨v, hv, hcv⟩
  rw [← hcv]
  exact charOfSextet_mem_of_lt v (chunk6_lt (bytesToBits r) v hv)

theorem isPrefixCh_map (f : Char → Char) (p q : List Char)
    (h : isPrefixCh p q = true) : isPrefixCh (p.map f) (q.map f) = true := by
  induction p generalizing q with
  | nil => simp [isPrefixCh]
  | cons a as ih =>
      cases q with
      | nil => simp [isPrefixCh] at h
      | cons b bs =>
          simp only [isPrefixCh, Bool.and_eq_true, beq_iff_eq] at h
          obtain ⟨h1, h2⟩ := h
          subst h1
          simp only [List.map_cons, isPrefixCh, Bool.and_eq_true, beq_iff_eq]
          exact ⟨by trivial, ih bs h2⟩

theorem isPrefixCh_bearer_nonempty (q : List Char)
    (h : isPrefixCh "Bearer ".toList q = true) : q ≠ [] := by
  intro hq
  subst hq
  simp [isPrefixCh] at h

theorem bearer_toLower :
    ("Bearer ".toList).map Char.toLower = "bearer ".toList := by decide

/-- Shape of `process_token` on a string with non-blank trim: `some` of
the trimmed string, with 7 characters dropped when the lowered trim has
the `"bearer "` prefix. -/
theorem process_token_eq (s : List Char) (h : pyStrip s ≠ []) :
    process_token s =
      some (if isPrefixCh "bearer ".toList (pyLower (pyStrip s)) then
        (pyStrip s).drop 7 else pyStrip s) := by
  have hb : (pyStrip s).isEmpty = false := by
    cases hps : pyStrip s with
    | nil => exact absurd hps h
    | cons a r => rfl
  unfold process_token
  rw [if_neg (by simp [hb])]
  rw [ite_self]

/-- C5: the pasted-token handling of `interactive_auth_flow`
(oauth_client.py lines 122-141).  The source trims the pasted string
first, so the claim's three cases are read on the trimmed string: a
trimmed string starting with `"Bearer "` has those 7 characters dropped
and the remainder returned; any string that is non-empty after trimming
is accepted (`some` result; when no case-insensitive `"bearer "` prefix
is present the trimmed string itself is returned); a string empty after
trimming yields `none`. -/
theorem claim_C5_token_handling (s : List Char) :
    (pyStrip s = [] → process_token s = none) ∧
    (pyStrip s ≠ [] → (process_token s).isSome) ∧
    (isPrefixCh "Bearer ".toList (pyStrip s) = true →
      process_token s = some ((pyStrip s).drop 7)) ∧
    (pyStrip s ≠ [] →
      isPrefixCh "bearer ".toList (pyLower (pyStrip s)) = false →
      process_token s = some (pyStrip s)) := by
  refine ⟨?_, ?_, ?_, ?_⟩
  · intro h
    simp [process_token, h]
  · intro h
    rw [process_token_eq s h]
    rfl
  · intro h
    have hne : pyStrip s ≠ [] := isPrefixCh_bearer_nonempty _ h
    have hlow : isPrefixCh "bearer ".toList (pyLower (pyStrip s)) = true := by
      have := isPrefixCh_map Char.toLower _ _ h
      rwa [bearer_toLower] at this
    rw [process_token_eq s hne, if_pos hlow]
  · intro h hlow
    rw [process_token_eq s h, if_neg (by simp only [hlow]; decide)]

/-- C5 witness: the three behaviours at concrete pasted tokens. -/
theorem claim_C5_token_handling_witness :
    process_token ("Bearer abc123xyz".toList) =
      some ((pyStrip ("Bearer abc123xyz".toList)).drop 7) ∧
    process_token ("   ".toList) = none ∧
    (process_token ("sometoken".toList)).isSome ∧
    process_token ("sometoken".toList) = some (pyStrip ("sometoken".toList)) :=
  ⟨(claim_C5_token_handling _).2.2.1 (by decide),
   (claim_C5_token_handling _).1 (by decide),
   (claim_C5_token_handling _).2.1 (by decide),
   (claim_C5_token_handling _).2.2.2 (by decide) (by decide)⟩

theorem ids_from_eq_range' (c : MCPClient) (n : Nat) :
    ids_from c n = List.range' c.nextRequestId n := by
  induction n generalizing c with
  | zero => rfl
  | succ n ih =>
      show c.nextRequestId :: ids_from (get_next_id c).2 n = _
      rw [ih]
      rfl

/-- C6: the ids handed out by successive `_get_next_id` calls on a fresh
client are exactly `1, 2, 3, ...`: strictly increasing, starting at 1,
and therefore unique within the session. -/
theorem claim_C6_next_id_monotone (u : String) (auth : Option String)
    (hs : Option (List (String × String))) (n : Nat) :
    ids_from (MCPClient.init u auth hs) n = List.range' 1 n ∧
    List.Pairwise (· < ·) (ids_from (MCPClient.init u auth hs) n) ∧
    (0 < n → (ids_from (MCPClient.init u auth hs) n).head? = some 1) ∧
    (ids_from (MCPClient.init u auth hs) n).Nodup := by
  have heq : ids_from (MCPClient.init u auth hs) n = List.range' 1 n :=
    ids_from_eq_range' _ n
  refine ⟨heq, ?_, ?_, ?_⟩
  · rw [heq]
    exact List.pairwise_lt_range' 1 n
  · intro hn
    rw [heq]
    cases n with
    | zero => exact absurd hn (by omega)
    | succ m => rfl
  · rw [heq]
    exact List.nodup_range' 1 n

/-- C6 witness: three calls on a fresh client yield `[1, 2, 3]`. -/
theorem claim_C6_next_id_monotone_witness :
    ids_from (MCPClient.init "https://rube.app/mcp" none none) 3 =
      List.range' 1 3 ∧
    List.Pairwise (· < ·)
      (ids_from (MCPClient.init "https://rube.app/mcp" none none) 3) ∧
    (ids_from (MCPClient.init "https://rube.app/mcp" none none) 3).head? =
      some 1 ∧
    (ids_from (MCPClient.init "https://rube.app/mcp" none none) 3).Nodup := by
  have h := claim_C6_next_id_monotone "https://rube.app/mcp" none none 3
  exact ⟨h.1, h.2.1, h.2.2.1 (by omega), h.2.2.2⟩

theorem token_urlsafe_length (r : List Nat) (hlen : r.length = 32) :
    (token_urlsafe r).length = 43 := by
  show ((chunk6 (bytesToBits r)).map charOfSextet).length = 43
  rw [List.length_map, chunk6_length, length_bytesToBits, hlen]

/-- C8: `generate_authorization_url` emits `response_type=code`, the
`openid profile email` scope, the given redirect URI, the login-hint and
email parameters, includes `client_id` only when one is configured (and
truthy), and a `state` that is the URL-safe base64 encoding of the 32
fresh entropy bytes fed to `secrets.token_urlsafe(32)` (43 URL-safe
characters); two runs on distinct entropy produce distinct states. -/
theorem claim_C8_authorization_url (oc : OAuth2Client)
    (redirectUri email : String) (e1 e2 : List Nat)
    (hl1 : e1.length = 32) (hb1 : ∀ b ∈ e1, b < 256)
    (hl2 : e2.length = 32) (hb2 : ∀ b ∈ e2, b < 256)
    (hne : e1 ≠ e2) :
    ("response_type", "code") ∈
      (generate_authorization_url oc redirectUri email e1).1 ∧
    ("scope", "openid profile email") ∈
      (generate_authorization_url oc redirectUri email e1).1 ∧
    ("redirect_uri", redirectUri) ∈
      (generate_authorization_url oc redirectUri email e1).1 ∧
    ("login_hint", email) ∈
      (generate_authorization_url oc redirectUri email e1).1 ∧
    ("email", email) ∈
      (generate_authorization_url oc redirectUri email e1).1 ∧
    ("state", (generate_authorization_url oc redirectUri email e1).2) ∈
      (generate_authorization_url oc redirectUri email e1).1 ∧
    (∀ cid, ("client_id", cid) ∈
        (generate_authorization_url oc redirectUri email e1).1 →
      oc.client_id = some cid) ∧
    (generate_authorization_url oc redirectUri email e1).2 =
      token_urlsafe e1 ∧
    ((generate_authorization_url oc redirectUri email e1).2).length = 43 ∧
    (∀ ch ∈ ((generate_authorization_url oc redirectUri email e1).2).toList,
      ch ∈ b64urlAlphabet) ∧
    (generate_authorization_url oc redirectUri email e1).2 ≠
      (generate_authorization_url oc redirectUri email e2).2 := by
  have hstate : ∀ e : List Nat,
      (generate_authorization_url oc redirectUri email e).2 = token_urlsafe e := by
    intro e
    unfold generate_authorization_url
    cases truthyStrOpt oc.client_id <;> rfl
  refine ⟨?_, ?_, ?_, ?_, ?_, ?_, ?_, hstate e1, ?_, ?_, ?_⟩
  · cases hcid : truthyStrOpt oc.client_id <;>
      simp [generate_authorization_url, hcid]
  · cases hcid : truthyStrOpt oc.client_id <;>
      simp [generate_authorization_url, hcid]
  · cases hcid : truthyStrOpt oc.client_id <;>
      simp [generate_authorization_url, hcid]
  · cases hcid : truthyStrOpt oc.client_id <;>
      simp [generate_authorization_url, hcid]
  · cases hcid : truthyStrOpt oc.client_id <;>
      simp [generate_authorization_url, hcid]
  · cases hcid : truthyStrOpt oc.client_id <;>
      simp [generate_authorization_url, hcid]
  · intro cid hmem
    simp only [generate_authorization_url] at hmem
    cases hcid : truthyStrOpt oc.client_id with
    | false =>
        rw [hcid] at hmem
        simp at hmem
    | true =>
        rw [hcid] at hmem
        simp at hmem
        cases hoc : oc.client_id with
        | none => rw [hoc] at hcid; simp [truthyStrOpt] at hcid
        | some scid =>
            rw [hoc] at hmem
            simp only [Option.getD_some] at hmem
            rw [hmem]
  · rw [hstate e1]
    exact token_urlsafe_length e1 hl1
  · rw [hstate e1]
    exact token_urlsafe_chars e1
  · rw [hstate e1, hstate e2]
    exact token_urlsafe_inj e1 e2 hl1 hb1 hl2 hb2 hne

/-- Entropy sample A for witnesses. -/
theorem claim_C8_authorization_url_witness :
    ("response_type", "code") ∈
      (generate_authorization_url composioClient
        "https://rube.app/api/auth/callback" "a@b.com" (List.range 32)).1 ∧
    ("state", (generate_authorization_url composioClient
        "https://rube.app/api/auth/callback" "a@b.com" (List.range 32)).2) ∈
      (generate_authorization_url composioClient
        "https://rube.app/api/auth/callback" "a@b.com" (List.range 32)).1 ∧
    ((generate_authorization_url composioClient
        "https://rube.app/api/auth/callback" "a@b.com" (List.range 32)).2).length
      = 43 ∧
    (generate_authorization_url composioClient
        "https://rube.app/api/auth/callback" "a@b.com" (List.range 32)).2 ≠
      (generate_authorization_url composioClient
        "https://rube.app/api/auth/callback" "a@b.com"
        (List.replicate 32 0)).2 := by
  have h := claim_C8_authorization_url composioClient
    "https://rube.app/api/auth/callback" "a@b.com" (List.range 32)
    (List.replicate 32 0) (by decide) (by decide) (by decide) (by decide)
    (by decide)
  exact ⟨h.1, h.2.2.2.2.2.1, h.2.2.2.2.2.2.2.2.1, h.2.2.2.2.2.2.2.2.2.2⟩

/-- C4 counterexample: on a `tools/list` Response whose `result` is a dict
whose `tools` value is NOT an array, `introspect_tools` returns that
value unchanged (here the string `"oops"`), not an empty list — the
source checks `'tools' in result` but never that `result['tools']` is a
list. -/
theorem claim_C4_counterexample :
    (introspect_tools (connResult nonArrayToolsResult)
      (MCPClient.init rubeUrl none none)).2.2 = .ok (JValue.str "oops") ∧
    JValue.str "oops" ≠ JValue.arr [] :=
  ⟨rfl, fun h => JValue.noConfusion h⟩

/-- C4 (amended): for a received `tools/list` Response envelope,
`introspect_tools` never raises: it returns `parseToolsResult` of the
message; a `result` with no `tools` key (in particular any non-dict or
falsy result) yields the empty list; when the key is present its value is
returned as-is, without checking that it is an array. -/
theorem claim_C4_missing_tools_empty (env : ConnEnv) (c : MCPClient)
    (m0 m : RpcMsg) (i : Nat) (res : JValue) :
    (env.initResponse = .msg m0 → env.toolsResponse = .msg m →
      (introspect_tools env c).2.2 = .ok (parseToolsResult m)) ∧
    (hasKeyB res "tools" = false → parseToolsResult (.response i res) = .arr []) ∧
    (jTruthy res = true → isObjB res = true → hasKeyB res "tools" = true →
      parseToolsResult (.response i res) = jGetD res "tools") := by
  refine ⟨?_, ?_, ?_⟩
  · intro h1 h2
    obtain ⟨ir, sid, trsp⟩ := env
    dsimp only at h1 h2
    subst h1
    subst h2
    rfl
  · intro h
    simp [parseToolsResult, h]
  · intro ht ho hk
    simp [parseToolsResult, ht, ho, hk]

/-- C4 witness: a Response whose `result` dict has no `tools` key makes
`introspect_tools` return the empty list without raising. -/
theorem claim_C4_missing_tools_empty_witness :
    (introspect_tools (connResult (.obj [("x", .num 1)]))
      (MCPClient.init rubeUrl none none)).2.2 =
      .ok (parseToolsResult (.response 2 (.obj [("x", .num 1)]))) ∧
    parseToolsResult (.response 2 (.obj [("x", .num 1)])) = .arr [] ∧
    parseToolsResult (.response 2 (.obj [("tools", .arr [])])) =
      jGetD (.obj [("tools", .arr [])]) "tools" :=
  ⟨(claim_C4_missing_tools_empty (connResult (.obj [("x", .num 1)]))
      (MCPClient.init rubeUrl none none) okInitMsg
      (.response 2 (.obj [("x", .num 1)])) 2 (.obj [("x", .num 1)])).1 rfl rfl,
   (claim_C4_missing_tools_empty (connResult (.obj [("x", .num 1)]))
      (MCPClient.init rubeUrl none none) okInitMsg
      (.response 2 (.obj [("x", .num 1)])) 2 (.obj [("x", .num 1)])).2.1 rfl,
   (claim_C4_missing_tools_empty (connResult (.obj [("x", .num 1)]))
      (MCPClient.init rubeUrl none none) okInitMsg
      (.response 2 (.obj [("x", .num 1)])) 2
      (.obj [("tools", .arr [])])).2.2 rfl rfl rfl⟩

/-- C9: for a received `tools/call` envelope, `call_tool` returns
`parseCallResult` of the message; a `JSONRPCResponse` with a falsy
`result` (null, empty dict, or otherwise falsy — pydantic would reject a
truly absent field before this point, surfacing it as a non-Response)
yields the empty mapping `{}` without raising; an error is raised exactly
when the message is not a `JSONRPCResponse`, and a Response always yields
a value. -/
theorem claim_C9_falsy_result_empty (env : ConnEnv) (c : MCPClient)
    (toolName : String) (args : Option JValue) (m0 m : RpcMsg) (i : Nat)
    (res : JValue) :
    (env.initResponse = .msg m0 → env.toolsResponse = .msg m →
      (call_tool env toolName args c).2.2 = parseCallResult m) ∧
    (jTruthy res = false → parseCallResult (.response i res) = .ok (.obj [])) ∧
    (∀ mm : RpcMsg,
      (parseCallResult mm = .error unexpectedFormatErr ↔ isResponseB mm = false) ∧
      (isResponseB mm = true → ∃ v, parseCallResult mm = .ok v)) := by
  refine ⟨?_, ?_, ?_⟩
  · intro h1 h2
    obtain ⟨ir, sid, trsp⟩ := env
    dsimp only at h1 h2
    subst h1
    subst h2
    rfl
  · intro h
    simp [parseCallResult, h]
  · intro mm
    cases mm with
    | request i mth p => simp [parseCallResult, isResponseB]
    | notification mth p => simp [parseCallResult, isResponseB]
    | response i r =>
        refine ⟨?_, ?_⟩
        · simp [parseCallResult, isResponseB]
        · intro _
          exact ⟨if jTruthy r then r else .obj [], rfl⟩
    | errorResponse i cd ms => simp [parseCallResult, isResponseB]

/-- C9 witness: a Response with `result` null makes `call_tool` return
the empty mapping. -/
theorem claim_C9_falsy_result_empty_witness :
    (call_tool (connResult .null) "SOME_TOOL" none
      (MCPClient.init rubeUrl none none)).2.2 =
      parseCallResult (.response 2 .null) ∧
    parseCallResult (.response 2 .null) = .ok (.obj []) ∧
    (parseCallResult (.notification "x" .null) = .error unexpectedFormatErr ↔
      isResponseB (.notification "x" .null) = false) :=
  ⟨(claim_C9_falsy_result_empty (connResult .null)
      (MCPClient.init rubeUrl none none) "SOME_TOOL" none okInitMsg
      (.response 2 .null) 2 .null).1 rfl rfl,
   (claim_C9_falsy_result_empty (connResult .null)
      (MCPClient.init rubeUrl none none) "SOME_TOOL" none okInitMsg
      (.response 2 .null) 2 .null).2.1 rfl,
   ((claim_C9_falsy_result_empty (connResult .null)
      (MCPClient.init rubeUrl none none) "SOME_TOOL" none okInitMsg
      (.response 2 .null) 2 .null).2.2 (.notification "x" .null)).1⟩

/-- A two-event trace (an `initialize` that died) contains no tool
request, so it is vacuously handshake-ordered. -/
theorem handshakeOrdered_pair (i1 : Nat) (p : JValue) (r : Recv) :
    handshakeOrdered [.sendReq i1 "initialize" p, .recvEv r] := by
  intro i id m pp hin hm
  obtain ⟨hlt, -⟩ := List.get?_eq_some.mp hin
  have h2 : i < 2 := by simpa using hlt
  interval_cases i
  · simp only [List.get?, Option.some.injEq, WireEv.sendReq.injEq] at hin
    obtain ⟨-, hm2, -⟩ := hin
    subst hm2
    rcases hm with h | h <;> exact absurd h (by decide)
  · simp at hin

/-- The five-event trace of a completed tool operation is
handshake-ordered: the tool request sits at index 3, after `initialize`
(0), its answer (1), and `notifications/initialized` (2). -/
theorem handshakeOrdered_full (i1 i2 : Nat) (p p2 pn : JValue) (m0 : RpcMsg)
    (mth : String) (rlast : Recv) :
    handshakeOrdered [.sendReq i1 "initialize" p, .recvEv (.msg m0),
      .sendNote "notifications/initialized" pn, .sendReq i2 mth p2,
      .recvEv rlast] := by
  intro i id m pp hin hm
  obtain ⟨hlt, -⟩ := List.get?_eq_some.mp hin
  have h5 : i < 5 := by simpa using hlt
  interval_cases i
  · simp only [List.get?, Option.some.injEq, WireEv.sendReq.injEq] at hin
    obtain ⟨-, hm2, -⟩ := hin
    subst hm2
    rcases hm with h | h <;> exact absurd h (by decide)
  · simp at hin
  · simp at hin
  · exact ⟨0, 1, 2, by omega, by omega, by omega, ⟨i1, p, rfl⟩, ⟨m0, rfl⟩,
      ⟨pn, rfl⟩⟩
  · simp at hin

/-- C3: every wire trace produced by `introspect_tools` or `call_tool`
sends its `tools/list` / `tools/call` request only after the `initialize`
request has been sent, a (non-exception) answer to it received, and the
`notifications/initialized` notification sent, in that order. -/
theorem claim_C3_handshake_before_tools (env : ConnEnv) (c : MCPClient)
    (toolName : String) (args : Option JValue) :
    handshakeOrdered (introspect_tools env c).1 ∧
    handshakeOrdered (call_tool env toolName args c).1 := by
  obtain ⟨ir, sid, trsp⟩ := env
  constructor
  · cases ir with
    | exn e => exact handshakeOrdered_pair _ _ _
    | msg m0 =>
        cases trsp with
        | exn e2 => exact handshakeOrdered_full _ _ _ _ _ _ _ _
        | msg mt => exact handshakeOrdered_full _ _ _ _ _ _ _ _
  · cases ir with
    | exn e => exact handshakeOrdered_pair _ _ _
    | msg m0 =>
        cases trsp with
        | exn e2 => exact handshakeOrdered_full _ _ _ _ _ _ _ _
        | msg mt => exact handshakeOrdered_full _ _ _ _ _ _ _ _

/-- C3 witness: on a successful listing, the `tools/list` request (index
3 of the trace) is preceded by `initialize` (0), its answer (1), and the
`initialized` notification (2). -/
theorem claim_C3_handshake_before_tools_witness :
    ∃ j k l, j < k ∧ k < l ∧ l < 3 ∧
      (∃ id0 p0, (introspect_tools (connResult (.arr []))
          (MCPClient.init rubeUrl none none)).1.get? j =
        some (.sendReq id0 "initialize" p0)) ∧
      (∃ mres, (introspect_tools (connResult (.arr []))
          (MCPClient.init rubeUrl none none)).1.get? k =
        some (.recvEv (.msg mres))) ∧
      (∃ pn, (introspect_tools (connResult (.arr []))
          (MCPClient.init rubeUrl none none)).1.get? l =
        some (.sendNote "notifications/initialized" pn)) :=
  (claim_C3_handshake_before_tools (connResult (.arr []))
    (MCPClient.init rubeUrl none none) "t" none).1 3 2 "tools/list" (.obj [])
    rfl (Or.inl rfl)

theorem introspect_tools_headers (env : ConnEnv) (c : MCPClient) :
    (introspect_tools env c).2.1.headers = c.headers := by
  obtain ⟨ir, sid, trsp⟩ := env
  cases ir <;> cases trsp <;> rfl

theorem call_tool_headers (env : ConnEnv) (toolName : String)
    (args : Option JValue) (c : MCPClient) :
    (call_tool env toolName args c).2.1.headers = c.headers := by
  obtain ⟨ir, sid, trsp⟩ := env
  cases ir <;> cases trsp <;> rfl

/-- C7 counterexample: `set_bearer_token` does NOT behave like
constructing a fresh client/session.  On a client whose id counter is
already at 3, the credential swap keeps the counter at 3, while a fresh
`MCPClient.__init__` state (spec §3 Session) would restart it at 1. -/
theorem claim_C7_counterexample : ¬ credential_replacement_constructs_fresh := by
  intro h
  have h1 := h demoClient "tok"
  have h2 := congrArg MCPClient.nextRequestId h1
  simp [demoClient, set_bearer_token, MCPClient.init] at h2

/-- C7 (amended): `set_bearer_token` mutates the Authorization header of
the SAME client in place — url, auth, session id, and (crucially) the
request-id counter are all carried over unchanged, so the retry continues
the counter instead of starting a fresh session state; and no tool
operation changes the headers: `introspect_tools` and `call_tool` return
the client with its header dict intact. -/
theorem claim_C7_credential_update_in_place (c : MCPClient) (t : String)
    (env : ConnEnv) (toolName : String) (args : Option JValue) :
    (set_bearer_token c t).url = c.url ∧
    (set_bearer_token c t).auth = c.auth ∧
    (set_bearer_token c t).sessionId = c.sessionId ∧
    (set_bearer_token c t).nextRequestId = c.nextRequestId ∧
    (set_bearer_token c t).headers =
      dictSet c.headers "Authorization" ("Bearer " ++ t) ∧
    (introspect_tools env c).2.1.headers = c.headers ∧
    (call_tool env toolName args c).2.1.headers = c.headers ∧
    (introspect_tools env c).2.1.url = c.url ∧
    (introspect_tools env c).2.1.auth = c.auth :=
  ⟨rfl, rfl, rfl, rfl, rfl, introspect_tools_headers env c,
   call_tool_headers env toolName args c,
   by obtain ⟨ir, sid, trsp⟩ := env; cases ir <;> cases trsp <;> rfl,
   by obtain ⟨ir, sid, trsp⟩ := env; cases ir <;> cases trsp <;> rfl⟩

theorem reqIds_append (tr1 tr2 : List WireEv) :
    reqIds (tr1 ++ tr2) = reqIds tr1 ++ reqIds tr2 :=
  List.filterMap_append tr1 tr2 _

theorem run_op_reqIds (c : MCPClient) (op : OpSpec) :
    reqIds (run_op c op).1 = List.range' c.nextRequestId (opCost op) ∧
    (run_op c op).2.nextRequestId = c.nextRequestId + opCost op := by
  cases op with
  | list env =>
      obtain ⟨ir, sid, trsp⟩ := env
      cases ir <;> cases trsp <;> exact ⟨rfl, rfl⟩
  | call env n a =>
      obtain ⟨ir, sid, trsp⟩ := env
      cases ir <;> cases trsp <;> exact ⟨rfl, rfl⟩

theorem run_ops_reqIds (ops : List OpSpec) (c : MCPClient) :
    reqIds (run_ops c ops).1 = List.range' c.nextRequestId (opsCost ops) ∧
    (run_ops c ops).2.nextRequestId = c.nextRequestId + opsCost ops := by
  induction ops generalizing c with
  | nil => exact ⟨rfl, rfl⟩
  | cons op rest ih =>
      obtain ⟨h1, h2⟩ := run_op_reqIds c op
      obtain ⟨h3, h4⟩ := ih (run_op c op).2
      have hcost : opsCost (op :: rest) = opCost op + opsCost rest := by
        simp [opsCost]
      constructor
      · show reqIds ((run_op c op).1 ++ (run_ops (run_op c op).2 rest).1) = _
        rw [reqIds_append, h1, h3, h2, hcost]
        have hr := List.range'_append c.nextRequestId (opCost op)
          (opsCost rest) 1
        simp only [one_mul] at hr
        rw [hr, Nat.add_comm (opsCost rest) (opCost op)]
      · show (run_ops (run_op c op).2 rest).2.nextRequestId = _
        rw [h4, h2, hcost]
        omega

/-- C10: the request-id counter lives on the client instance and is never
reset: over any sequence of operations on one client (each opening its
own connection), the request ids sent are exactly `1, 2, ..., N` in
order — strictly increasing across connections, never restarting at 1,
hence unique across all connections of that client — and the counter
ends at `1 + N`. -/
theorem claim_C10_ids_continue_across_ops (u : String) (auth : Option String)
    (hs : Option (List (String × String))) (ops : List OpSpec) :
    reqIds (run_ops (MCPClient.init u auth hs) ops).1 =
      List.range' 1 (opsCost ops) ∧
    List.Pairwise (· < ·) (reqIds (run_ops (MCPClient.init u auth hs) ops).1) ∧
    (reqIds (run_ops (MCPClient.init u auth hs) ops).1).Nodup ∧
    (run_ops (MCPClient.init u auth hs) ops).2.nextRequestId =
      1 + opsCost ops := by
  obtain ⟨h1, h2⟩ := run_ops_reqIds ops (MCPClient.init u auth hs)
  refine ⟨h1, ?_, ?_, h2⟩
  · rw [h1]
    exact List.pairwise_lt_range' 1 (opsCost ops)
  · rw [h1]
    exact List.nodup_range' 1 (opsCost ops)

/-- C10 witness: two listings in a row on one client use ids 1-2 and then
3-4 — the second connection does not restart at 1. -/
theorem claim_C10_ids_continue_across_ops_witness :
    reqIds (run_ops (MCPClient.init "https://rube.app/mcp" none none)
      [.list (connResult (.arr [])), .list (connResult (.arr []))]).1 =
      List.range' 1 4 ∧
    (run_ops (MCPClient.init "https://rube.app/mcp" none none)
      [.list (connResult (.arr [])), .list (connResult (.arr []))]).2.nextRequestId
      = 1 + 4 := by
  have h := claim_C10_ids_continue_across_ops "https://rube.app/mcp" none none
    [.list (connResult (.arr [])), .list (connResult (.arr []))]
  exact ⟨h.1, h.2.2.2⟩

/-- C1: when the first `introspect_tools` attempt fails with an error the
string classifier marks as authentication, and the OAuth flow yields a
token, `query_mcp_server` retries exactly once, on the same client with
the new `Authorization: Bearer <token>` header attached; the retry's
outcome is final — an error there (of any kind, a second 401 included) is
reported as the authentication-failure panel with no further OAuth cycle
or retry (attempts stay at two, OAuth invocations at one). -/
theorem claim_C1_retry_exactly_once (env : MainEnv) (e : ErrInfo) (tok : String)
    (h1 : (introspect_tools env.conn1 (MCPClient.init rubeUrl none none)).2.2 =
      .error e)
    (h2 : is_auth_error e = true)
    (h3 : authenticate_with_oauth env = some tok) :
    (query_mcp_server env).attempts =
      [[], [("Authorization", "Bearer " ++ tok)]] ∧
    (query_mcp_server env).oauthInvocations = 1 ∧
    (∀ e2, (introspect_tools env.conn2
        (set_bearer_token
          (introspect_tools env.conn1 (MCPClient.init rubeUrl none none)).2.1
          tok)).2.2 = .error e2 →
      (query_mcp_server env).final = .authFailedRetry e2) ∧
    (∀ tools, (introspect_tools env.conn2
        (set_bearer_token
          (introspect_tools env.conn1 (MCPClient.init rubeUrl none none)).2.1
          tok)).2.2 = .ok tools →
      (query_mcp_server env).final = .success tools 2) := by
  have hc1h : (introspect_tools env.conn1
      (MCPClient.init rubeUrl none none)).2.1.headers = [] :=
    introspect_tools_headers _ _
  have hch : (MCPClient.init rubeUrl none none).headers = [] := rfl
  have hc2h : (set_bearer_token
      (introspect_tools env.conn1 (MCPClient.init rubeUrl none none)).2.1
      tok).headers = [("Authorization", "Bearer " ++ tok)] := by
    simp [set_bearer_token, hc1h, dictSet]
  refine ⟨?_, ?_, ?_, ?_⟩
  · cases hres : (introspect_tools env.conn2
        (set_bearer_token
          (introspect_tools env.conn1 (MCPClient.init rubeUrl none none)).2.1
          tok)).2.2 with
    | ok tools => simp [query_mcp_server, h1, h2, h3, hres, hc2h, hch]
    | error e2 => simp [query_mcp_server, h1, h2, h3, hres, hc2h, hch]
  · cases hres : (introspect_tools env.conn2
        (set_bearer_token
          (introspect_tools env.conn1 (MCPClient.init rubeUrl none none)).2.1
          tok)).2.2 with
    | ok tools => simp [query_mcp_server, h1, h2, h3, hres]
    | error e2 => simp [query_mcp_server, h1, h2, h3, hres]
  · intro e2 he2
    simp [query_mcp_server, h1, h2, h3, he2]
  · intro tools ht
    simp [query_mcp_server, h1, h2, h3, ht]

/-- C1 witness: 401 on the first attempt, token pasted, 401 again on the
retry — two attempts, one OAuth cycle, failure reported. -/
theorem claim_C1_retry_exactly_once_witness :
    (query_mcp_server env401).attempts =
      [[], [("Authorization", "Bearer " ++ "abc123xyz")]] ∧
    (query_mcp_server env401).oauthInvocations = 1 ∧
    (query_mcp_server env401).final = .authFailedRetry e401 := by
  have h := claim_C1_retry_exactly_once env401 e401 "abc123xyz" rfl (by decide)
    rfl
  exact ⟨h.1, h.2.1, h.2.2.1 e401 rfl⟩

/-- C2 counterexample: the source classifies by substring match on the
error text (`"401 Unauthorized"` or `"HTTPStatusError"`), not by HTTP
status discussed by the claim.  An HTTP 500 surfaced as an
`httpx.HTTPStatusError` (whose traceback names that class) triggers the
OAuth flow even though its status is neither 401 nor 403. -/
theorem claim_C2_counterexample : ¬ only_auth_statuses_trigger_oauth := by
  intro h
  have h0 := h env500 e500 rfl (by decide)
  have h1 : (query_mcp_server env500).oauthInvocations = 1 := rfl
  rw [h0] at h1
  simp at h1

/-- C2 (amended): `query_mcp_server` invokes the OAuth flow exactly once
when (and only when) the first attempt's error message or traceback
contains `"401 Unauthorized"` or `"HTTPStatusError"` (the `is_auth_error`
classifier), regardless of the underlying HTTP status; and it never
invokes the OAuth flow more than once in a run. -/
theorem claim_C2_oauth_on_classified_error (env : MainEnv) (e : ErrInfo) :
    ((introspect_tools env.conn1 (MCPClient.init rubeUrl none none)).2.2 =
        .error e →
      (query_mcp_server env).oauthInvocations =
        if is_auth_error e then 1 else 0) ∧
    (query_mcp_server env).oauthInvocations ≤ 1 := by
  constructor
  · intro h1
    cases hae : is_auth_error e with
    | false => simp [query_mcp_server, h1, hae]
    | true =>
        cases hoa : authenticate_with_oauth env with
        | none => simp [query_mcp_server, h1, hae, hoa]
        | some tok =>
            cases hres : (introspect_tools env.conn2
                (set_bearer_token
                  (introspect_tools env.conn1
                    (MCPClient.init rubeUrl none none)).2.1 tok)).2.2 with
            | ok tools => simp [query_mcp_server, h1, hae, hoa, hres]
            | error e2 => simp [query_mcp_server, h1, hae, hoa, hres]
  · cases hq : (introspect_tools env.conn1
        (MCPClient.init rubeUrl none none)).2.2 with
    | ok tools => simp [query_mcp_server, hq]
    | error e' =>
        cases hae : is_auth_error e' with
        | false => simp [query_mcp_server, hq, hae]
        | true =>
            cases hoa : authenticate_with_oauth env with
            | none => simp [query_mcp_server, hq, hae, hoa]
            | some tok =>
                cases hres : (introspect_tools env.conn2
                    (set_bearer_token
                      (introspect_tools env.conn1
                        (MCPClient.init rubeUrl none none)).2.1 tok)).2.2 with
                | ok tools => simp [query_mcp_server, hq, hae, hoa, hres]
                | error e2 => simp [query_mcp_server, hq, hae, hoa, hres]

/-- C2 witness: the 401 run triggers exactly one OAuth invocation. -/
theorem claim_C2_oauth_on_classified_error_witness :
    (query_mcp_server env401).oauthInvocations =
      (if is_auth_error e401 then 1 else 0) ∧
    (query_mcp_server env401).oauthInvocations ≤ 1 :=
  ⟨(claim_C2_oauth_on_classified_error env401 e401).1 rfl,
   (claim_C2_oauth_on_classified_error env401 e401).2⟩

end RubeIksCube
